import Mathlib

/-!
A verification development for the `jest-llm-eval` repository: a shallow
embedding, in Lean 4, of the criteria-based evaluation engine, its custom
assertion operators (`toPassAllCriteria`, `toPassWithConfidence`,
`toHaveToolCall`), the evaluation-record store, the deep partial matcher
for tool-call arguments, and the multi-step conversation runner, together
with theorems settling the behavioural claims made about them.

JavaScript values reachable by the tool-argument matcher are modelled by
`JValue`; since the matcher compares objects and arrays with `===`
(reference identity), every object and array node carries an explicit
reference tag `ref : Nat`, and two nodes are `===`-equal exactly when
their tags coincide.  Numbers are modelled as integers (no NaN), and
JavaScript `async` functions are modelled as pure functions returning
their settled outcome; promise rejection/thrown errors are `Except.error`.
-/

namespace JestLlmEval

mutual
/-- JavaScript values, with explicit reference tags on objects and arrays
so that `===` (strict equality) is expressible.  `vundefined` is `undefined`,
the result of a missing property access. -/
inductive JValue : Type where
  | vnum (n : Int)
  | vstr (s : String)
  | vbool (b : Bool)
  | vnull
  | vundefined
  | varr (ref : Nat) (elems : JArray)
  | vobj (ref : Nat) (fields : JFields)
inductive JArray : Type where
  | nil
  | cons (v : JValue) (rest : JArray)
inductive JFields : Type where
  | nil
  | cons (key : String) (v : JValue) (rest : JFields)
end

namespace JArray

def length : JArray → Nat
  | .nil => 0
  | .cons _ rest => 1 + rest.length

def append : JArray → JArray → JArray
  | .nil, b => b
  | .cons v rest, b => .cons v (rest.append b)

def get? : JArray → Nat → Option JValue
  | .nil, _ => none
  | .cons v _, 0 => some v
  | .cons _ rest, n + 1 => rest.get? n

end JArray

/-- JavaScript truthiness for the values of `JValue` (`!x` in the source is
the negation of this; `NaN` and `0n` are not modelled). -/
def truthy : JValue → Bool
  | .vnum n => n != 0
  | .vstr s => s != ""
  | .vbool b => b
  | .vnull => false
  | .vundefined => false
  | .varr _ _ => true
  | .vobj _ _ => true

def findField : JFields → String → Option JValue
  | .nil, _ => none
  | .cons k v rest, key => if k == key then some v else findField rest key

/-- Array element access with JavaScript out-of-bounds behaviour
(`undefined`). -/
def jaGet : JArray → Nat → JValue
  | .nil, _ => .vundefined
  | .cons v _, 0 => v
  | .cons _ rest, n + 1 => jaGet rest n

/-- Property access `value[key]`: own-field lookup on objects, numeric
index lookup on arrays, `undefined` otherwise (string character indexing
and prototype properties such as `length` are not reachable by the
matcher's inputs and are modelled as `undefined`). -/
def getField : JValue → String → JValue
  | .vobj _ fields, key => (findField fields key).getD .vundefined
  | .varr _ elems, key => (key.toNat?.map (jaGet elems)).getD .vundefined
  | _, _ => .vundefined

/-- Index access `value[i]` for a numeric index. -/
def getIdx : JValue → Nat → JValue
  | .varr _ elems, i => jaGet elems i
  | _, _ => .vundefined

/-- JavaScript `===`: primitive values compare by value, objects and
arrays by reference tag. -/
def strictEq : JValue → JValue → Bool
  | .vnum a, .vnum b => a == b
  | .vstr a, .vstr b => a == b
  | .vbool a, .vbool b => a == b
  | .vnull, .vnull => true
  | .vundefined, .vundefined => true
  | .varr r _, .varr r' _ => r == r'
  | .vobj r _, .vobj r' _ => r == r'
  | _, _ => false

def JValue.isArr : JValue → Bool
  | .varr _ _ => true
  | _ => false

/-- `val.every((v, i) => actualArr[i] === v)` from `deepPartialMatch`
(src/unnamed/part_008 lines 289-294): every element of the expected array
must be `===`-equal to the actual array's element at the same index;
indices past the actual array's length read as `undefined`. -/
def arrPrefixEq (actualArr : JValue) : Nat → JArray → Bool
  | _, .nil => true
  | i, .cons v vs => strictEq (getIdx actualArr i) v && arrPrefixEq actualArr (i + 1) vs

/-- `Object.entries` of a string: index keys paired with one-character
strings; each such value is a primitive, compared by `===` below. -/
def matchStrEntries (actual : JValue) : Nat → List Char → Bool
  | _, [] => true
  | i, c :: cs =>
      strictEq (getField actual (toString i)) (.vstr (String.singleton c)) &&
      matchStrEntries actual (i + 1) cs

mutual
/-- The body of `deepPartialMatch` (src/unnamed/part_008 lines 279-297),
split into mutually recursive workers over the entry list of `expected`.
`matchEntry` handles one `[key, val]` entry of `Object.entries(expected)`:
a truthy non-array object value recurses (the recursive call
`deepPartialMatch(actual[key], val)` is inlined here with `val`'s truthiness
discharged, see `matchEntry_vobj`), an array value requires
`Array.isArray(actual[key])` and element-wise `===` at matching indices,
and any other value requires `actual[key] === val`. -/
def matchEntries (actual : JValue) : JFields → Bool
  | .nil => true
  | .cons key val rest => matchEntry actual key val && matchEntries actual rest
termination_by structural fs => fs

def matchIdxEntries (actual : JValue) : Nat → JArray → Bool
  | _, .nil => true
  | i, .cons v vs => matchEntry actual (toString i) v && matchIdxEntries actual (i + 1) vs
termination_by structural _ a => a

def matchEntry (actual : JValue) (key : String) : JValue → Bool
  | .vobj _ fields =>
      if truthy (getField actual key) = false then false
      else matchEntries (getField actual key) fields
  | .varr _ elems => (getField actual key).isArr && arrPrefixEq (getField actual key) 0 elems
  | v => strictEq (getField actual key) v
termination_by structural v => v
end

/-- `deepPartialMatch(actual, expected)` (src/unnamed/part_008 lines
279-297): falsy `expected` matches anything, falsy `actual` matches
nothing, and otherwise every entry of `Object.entries(expected)` must be
satisfied in `actual` (`Object.entries` of a number or boolean is empty,
of an array its indexed elements, of a string its indexed characters). -/
def deepPartialMatch (actual expected : JValue) : Bool :=
  if truthy expected = false then true
  else if truthy actual = false then false
  else
    match expected with
    | .vobj _ fields => matchEntries actual fields
    | .varr _ elems => matchIdxEntries actual 0 elems
    | .vstr s => matchStrEntries actual 0 s.toList
    | _ => true

/-- The object case of `matchEntry` is exactly the source's recursive call
`deepPartialMatch(actual[key], val)`: an object value is truthy, so the
first guard of `deepPartialMatch` never fires on it. -/
theorem matchEntry_vobj (actual : JValue) (key : String) (r : Nat) (fields : JFields) :
    matchEntry actual key (.vobj r fields) =
      deepPartialMatch (getField actual key) (.vobj r fields) := by
  simp [matchEntry, deepPartialMatch, truthy]

/-! ### Conversation data model (src/packages/llm-eval/src/types.ts and
src/unnamed/part_011) -/

inductive Role : Type where
  | system
  | user
  | assistant
  | tool
deriving DecidableEq

/-- A `MessagePart`: `{type:"text"}`, `{type:"tool-call", toolName, input}`,
`{type:"tool-result", toolName, output, isError?}`, or a bare string. -/
inductive MessagePart : Type where
  | text (t : String)
  | toolCall (toolName : String) (input : JValue)
  | toolResult (toolName : String) (output : JValue) (isError : Bool)
  | raw (s : String)

/-- `content: string | MessagePart[]`. -/
inductive MessageContent : Type where
  | str (s : String)
  | parts (ps : List MessagePart)

structure GenericMessage : Type where
  role : Role
  content : MessageContent

/-! ### Criteria and result data model (src/unnamed/part_012 and the
types re-exported by the current evaluation-utils) -/

structure EvaluationCriterionDef : Type where
  id : String
  description : String
deriving DecidableEq

structure EvaluatedCriterionResult : Type where
  id : String
  description : String
  passed : Bool
deriving DecidableEq

/-- `TokenUsage`: `totalTokens` always present, the other two optional. -/
structure TokenUsage : Type where
  promptTokens : Option Nat
  completionTokens : Option Nat
  totalTokens : Nat
deriving DecidableEq

structure EvaluationResultWithUsage : Type where
  results : List EvaluatedCriterionResult
  usage : TokenUsage

/-! ### The tool-call argument operator `toHaveToolCall`
(src/unnamed/part_008 lines 302-340).  The scan keeps three mutable
variables: `found` (some entry matched the tool name), `foundWithArgs`
(some entry matched name and arguments), and `actualArgs` (the `input` of
the last name-matching entry inspected).  The inner loop over a message's
content entries `break`s only when an entry matches both name and
arguments; the outer loop over assistant messages `break`s once
`foundWithArgs` is set. -/

structure ToolCallScanState : Type where
  found : Bool
  foundWithArgs : Bool
  actualArgs : Option JValue

/-- `!expectedArgs || deepPartialMatch(e.input, expectedArgs)`. -/
def argsAccepted (expectedArgs : Option JValue) (input : JValue) : Bool :=
  match expectedArgs with
  | none => true
  | some ea => deepPartialMatch input ea

/-- The inner `for (const entry of msg.content)` loop. -/
def scanEntries (toolName : String) (expectedArgs : Option JValue)
    (st : ToolCallScanState) : List MessagePart → ToolCallScanState
  | [] => st
  | e :: rest =>
    match e with
    | .toolCall name input =>
        if name == toolName then
          let st1 : ToolCallScanState := ⟨true, st.foundWithArgs, some input⟩
          if argsAccepted expectedArgs input then { st1 with foundWithArgs := true }
          else scanEntries toolName expectedArgs st1 rest
        else scanEntries toolName expectedArgs st rest
    | _ => scanEntries toolName expectedArgs st rest

/-- `Array.isArray(msg.content)` guard: a string content contributes no
entries to the scan. -/
def contentParts : MessageContent → List MessagePart
  | .parts ps => ps
  | .str _ => []

/-- The outer `for (const msg of assistantMsgs)` loop with its
`if (foundWithArgs) break`. -/
def scanMessages (toolName : String) (expectedArgs : Option JValue)
    (st : ToolCallScanState) : List GenericMessage → ToolCallScanState
  | [] => st
  | m :: rest =>
    let st1 := scanEntries toolName expectedArgs st (contentParts m.content)
    if st1.foundWithArgs then st1 else scanMessages toolName expectedArgs st1 rest

/-- Which of the three diagnostic messages the matcher produces: the
`message()` thunk is `foundWithArgs ? ...did... : found ? ...args did not
match... : ...none was found...`. -/
inductive ToolCallVerdict : Type where
  | matched
  | argsMismatch
  | notFound
deriving DecidableEq

structure ToolCallResult : Type where
  pass : Bool
  verdict : ToolCallVerdict
  actualArgs : Option JValue

/-- `toHaveToolCall(received, toolName, expectedArgs?)`: scan assistant
messages in conversation order and content entries in order; pass iff some
tool-call entry matches the name and (when given) the expected arguments
by deep partial match. -/
def toHaveToolCall (received : List GenericMessage) (toolName : String)
    (expectedArgs : Option JValue) : ToolCallResult :=
  let st := scanMessages toolName expectedArgs ⟨false, false, none⟩
    (received.filter (fun m => m.role == .assistant))
  { pass := st.foundWithArgs
    verdict :=
      if st.foundWithArgs then .matched
      else if st.found then .argsMismatch
      else .notFound
    actualArgs := st.actualArgs }

/-! ### The criteria-pass operator `toPassAllCriteria`
(src/unnamed/part_008 lines 58-156) and the process-wide record store. -/

/-- One evaluation record (src/unnamed/part_008 lines 32-44). -/
structure EvaluationRecord : Type where
  id : String
  testPath : String
  testName : String
  timestamp : String
  durationMs : Nat
  modelId : String
  conversation : List GenericMessage
  criteria : List EvaluationCriterionDef
  results : List EvaluatedCriterionResult
  usage : TokenUsage
  passed : Bool

/-- The ambient inputs the matcher reads besides its arguments: the jest
context fields `testPath` and `currentTestName`, the two `Date.now()`
readings, and the ISO rendering of the start time (calendar formatting by
the external `Date` API, taken as an input here). -/
structure MatcherContext : Type where
  testPath : Option String
  currentTestName : Option String
  startTime : Nat
  endTime : Nat
  isoTimestamp : String

structure MatcherResult : Type where
  pass : Bool
  message : String

/-- JavaScript `a || d` on an optional string: the default is used when the
value is absent or falsy (empty). -/
def strOrDefault (o : Option String) (d : String) : String :=
  match o with
  | some s => if s == "" then d else s
  | none => d

/-- `.replace(/[^a-zA-Z0-9-_]/g, '_')` applied character-wise. -/
def sanitizeIdChar (c : Char) : Char :=
  if c.isAlpha || c.isDigit || c == '-' || c == '_' then c else '_'

def sanitizeId (s : String) : String :=
  s.map sanitizeIdChar

/-- The awaited `evaluateAiResponse(judgeToUse, conversation, criteria)`
call as the matcher sees it: a function from the conversation and the
criteria to the judge's settled result.  A rejected promise (judge
failure) propagates out of the matcher before any record is appended and
is outside this total model. -/
abbrev JudgeFn : Type :=
  List GenericMessage → List EvaluationCriterionDef → EvaluationResultWithUsage

/-- The observable outcome of one `toPassAllCriteria` invocation: the
matcher result, the record store after the call, and how many times the
judge was invoked. -/
structure CriteriaPassOutcome : Type where
  result : MatcherResult
  records : List EvaluationRecord
  judgeCalls : Nat

/-- `toPassAllCriteria(receivedConversation, criteria, judge)`
(src/unnamed/part_008 lines 58-156) over an explicit record store.
Missing arguments are `none`; the three validation guards return a failed
matcher result without calling the judge or touching the store.  On the
main path the judge is called once, `allPassed` is the conjunction of the
per-criterion verdicts, exactly one record is appended, and the failure
message lists each failed criterion as `id: description` joined by
`"\n  "`. -/
def toPassAllCriteria (store : List EvaluationRecord)
    (receivedConversation : Option (List GenericMessage))
    (criteria : Option (List EvaluationCriterionDef))
    (judge : Option JudgeFn) (ctx : MatcherContext) : CriteriaPassOutcome :=
  match receivedConversation with
  | none =>
      ⟨⟨false, "Expected a conversation (ModelMessage[]) to be provided."⟩, store, 0⟩
  | some conv =>
    match criteria with
    | none =>
        ⟨⟨false, "Expected evaluation criteria (EvaluationCriterionDef[]) to be provided."⟩,
          store, 0⟩
    | some crits =>
      if crits.length == 0 then
        ⟨⟨false, "Expected evaluation criteria (EvaluationCriterionDef[]) to be provided."⟩,
          store, 0⟩
      else
        match judge with
        | none => ⟨⟨false, "Expected a judge adapter to be provided."⟩, store, 0⟩
        | some judgeFn =>
          let evaluationData := judgeFn conv crits
          let allPassed := evaluationData.results.all (fun c => c.passed)
          let testPath := strOrDefault ctx.testPath "unknown_path"
          let testName := strOrDefault ctx.currentTestName "unknown_test_name"
          let record : EvaluationRecord :=
            { id := sanitizeId (testPath ++ "-" ++ testName ++ "-" ++ toString ctx.startTime)
              testPath := testPath
              testName := testName
              timestamp := ctx.isoTimestamp
              durationMs := ctx.endTime - ctx.startTime
              modelId := "judge"
              conversation := conv
              criteria := crits
              results := evaluationData.results
              usage := evaluationData.usage
              passed := allPassed }
          let newStore := store ++ [record]
          if allPassed then
            ⟨⟨true, "expected all criteria not to pass"⟩, newStore, 1⟩
          else
            ⟨⟨false,
              "expected all criteria to pass, but these failed:\n  " ++
                String.intercalate "\n  "
                  ((evaluationData.results.filter (fun c => !c.passed)).map
                    (fun c => c.id ++ ": " ++ c.description))⟩,
              newStore, 1⟩

/-! ### The confidence operator `toPassWithConfidence`
(src/unnamed/part_008 lines 161-205).  Each iteration's `async` body
catches any thrown error, logs it and resolves `false`, so
`Promise.allSettled` only ever sees fulfilled promises; the test function
is modelled as its settled outcome per iteration index. -/

structure ConfidenceOptions : Type where
  iterations : Option Nat
  minSuccessRate : Option ℚ

structure ConfidenceOutcome : Type where
  pass : Bool
  successes : Nat
  iterations : Nat
  successRate : ℚ
  logs : List String

def isOk : Except String Unit → Bool
  | .ok _ => true
  | .error _ => false

/-- `console.log` line for a failed iteration. -/
def iterationLog (i n : Nat) (msg : String) : String :=
  "Iteration " ++ toString (i + 1) ++ "/" ++ toString n ++ " failed: " ++ msg

/-- One iteration's settled outcome as `Promise.allSettled` sees it: the
`async` wrapper resolves `true` on success and, on a thrown error, logs
and resolves `false` — it never rejects. -/
def iterationResult (testFn : Nat → Except String Unit) (n i : Nat) :
    Bool × Option String :=
  match testFn i with
  | .ok _ => (true, none)
  | .error msg => (false, some (iterationLog i n msg))

/-- `toPassWithConfidence(testFn, {iterations = 10, minSuccessRate = 0.8})`:
run the function once per index `0..iterations-1`, count an iteration as a
success iff it completed without throwing, and pass iff
`successes / iterations >= minSuccessRate` (JavaScript doubles modelled by
exact rationals). -/
def toPassWithConfidence (testFn : Nat → Except String Unit)
    (options : ConfidenceOptions) : ConfidenceOutcome :=
  let iterations := options.iterations.getD 10
  let minSuccessRate := options.minSuccessRate.getD (0.8 : ℚ)
  let results := (List.range iterations).map (iterationResult testFn iterations)
  let successes := (results.filter (fun r => r.1)).length
  let successRate : ℚ := (successes : ℚ) / (iterations : ℚ)
  { pass := decide (successRate ≥ minSuccessRate)
    successes := successes
    iterations := iterations
    successRate := successRate
    logs := results.filterMap (fun r => r.2) }

/-! ### The multi-step conversation runner `runMultiStepTest`
(src/unnamed/part_008 lines 239-276).  `generateText` is an external
generation call; it is modelled as a function from the agent config
produced by `createAgentPrompt` to the generated assistant messages
(`result.response.messages`).  The trace records, besides the returned
model-facing transcript, every `onStep` invocation (transcript so far and
zero-based step index, in call order) and the number of generation
calls. -/

structure MultiStepTrace : Type where
  modelHistory : List GenericMessage
  steps : List (List GenericMessage × Nat)
  genCalls : Nat

def runMultiStepAux {α : Type} (createAgentPrompt : List GenericMessage → α)
    (generate : α → List GenericMessage)
    (history modelHistory : List GenericMessage) (i : Nat) :
    List String → MultiStepTrace
  | [] => ⟨modelHistory, [], 0⟩
  | u :: rest =>
      let userMsg : GenericMessage := ⟨.user, .str u⟩
      let history1 := history ++ [userMsg]
      let modelHistory1 := modelHistory ++ [userMsg]
      let assistantMsgs := generate (createAgentPrompt history1)
      let modelHistory2 := modelHistory1 ++ assistantMsgs
      let t := runMultiStepAux createAgentPrompt generate history1 modelHistory2 (i + 1) rest
      ⟨t.modelHistory, (modelHistory2, i) :: t.steps, t.genCalls + 1⟩

/-- `runMultiStepTest(userMessages, {createAgentPrompt, onStep?})`: for
each user turn in order, append it to the user-message history and the
model-facing transcript, perform one generation call on the prompt built
from the user-message history, append the generated assistant messages to
the transcript, and invoke `onStep(transcript, i)`; return the full
transcript. -/
def runMultiStepTest {α : Type} (userMessages : List String)
    (createAgentPrompt : List GenericMessage → α)
    (generate : α → List GenericMessage) : MultiStepTrace :=
  runMultiStepAux createAgentPrompt generate [] [] 0 userMessages

/-! ### The evaluation engine and the criteria builder.

The current `evaluation-utils` module — the JudgeAdapter-based
`evaluateAiResponse` that src/unnamed/part_008 imports and that the unit
tests in src/unnamed/part_003 exercise — is not present in the source
snapshot; src/unnamed/part_012 holds a LanguageModel-based version whose
signature those callers no longer match.  The engine is therefore
modelled from the spec, while everything the snapshot does contain — the
`CRITERIA` table and the `CriteriaBuilder` of part_012, and the usage
normalization of src/packages/llm-eval/src/ai-sdk-judge.ts — is embedded
from the source. -/

/-- What a judge adapter returns once its promise settles successfully:
the parsed `object.criteria` array and optional token usage. -/
structure AdapterResponse : Type where
  criteriaResults : List EvaluatedCriterionResult
  usage : Option TokenUsage

/-- The judge adapter as the engine sees it, already applied to the fixed
output schema: a function from the conversation and the criteria (which
determine the system prompt) to its settled response. -/
abbrev AdapterFn : Type :=
  List GenericMessage → List EvaluationCriterionDef → AdapterResponse

/-- Modelled from the spec: the current JudgeAdapter-based
`evaluateAiResponse` — absent from the source snapshot — per §4.3 invokes
the adapter exactly once, extracts `object.criteria` as the result array,
and normalizes usage to always include `totalTokens`, defaulting to `0`
when the adapter omitted usage. -/
def evaluateAiResponse (adapter : AdapterFn) (messages : List GenericMessage)
    (evaluationCriteria : List EvaluationCriterionDef) : EvaluationResultWithUsage :=
  let r := adapter messages evaluationCriteria
  { results := r.criteriaResults
    usage :=
      match r.usage with
      | some u => u
      | none => ⟨none, none, 0⟩ }

/-- The `usage` object of the underlying `generateObject` call in
`createAiSdkJudge` before normalization: `totalTokens` may be absent. -/
structure RawGenerateUsage : Type where
  totalTokens : Option Nat

/-- The usage normalization of `createAiSdkJudge`
(src/packages/llm-eval/src/ai-sdk-judge.ts lines 44-47):
`{ totalTokens: usage?.totalTokens ?? 0 }`. -/
def normalizeAiSdkUsage (usage : Option RawGenerateUsage) : TokenUsage :=
  ⟨none, none, ((usage.map (fun u => u.totalTokens)).getD none).getD 0⟩

/-- The predefined criteria table (src/unnamed/part_012 lines 31-52),
keyed by its export names. -/
def CRITERIA : List (String × EvaluationCriterionDef) :=
  [ ("Welcome", ⟨"welcome", "The response is welcoming to the user"⟩),
    ("Relevance", ⟨"relevance", "The response is relevant to the user's initial greeting"⟩),
    ("LanguageMatch",
      ⟨"language_match", "The response is in the same language as the user's message"⟩),
    ("Conciseness", ⟨"conciseness", "The response is concise and to the point"⟩),
    ("Professionalism", ⟨"professionalism", "The response maintains a professional tone"⟩) ]

/-- The argument of `CriteriaBuilder.add`: a predefined-criterion key or a
literal criterion. -/
inductive AddArg : Type where
  | predefinedKey (key : String)
  | criterion (c : EvaluationCriterionDef)

/-- `CriteriaBuilder.add` (src/unnamed/part_012 lines 71-78): a string
argument is looked up by indexing the `CRITERIA` table — JavaScript
indexing yields `undefined` for an unknown key, modelled as `none` — and
the result is pushed onto `currentCriteria` as-is; a literal criterion is
pushed directly.  Both branches return the builder for chaining; the
method is a total function with no throwing path, so builder entries are
`Option EvaluationCriterionDef` to keep the pushed `undefined`
representable. -/
def CriteriaBuilder.add (currentCriteria : List (Option EvaluationCriterionDef)) :
    AddArg → List (Option EvaluationCriterionDef)
  | .predefinedKey key =>
      currentCriteria ++ [(CRITERIA.find? (fun p => p.1 == key)).map (fun p => p.2)]
  | .criterion c => currentCriteria ++ [some c]

/-- `defineEvaluationCriteria()` starts from an empty builder
(src/unnamed/part_012 lines 58-95). -/
def defineEvaluationCriteria : List (Option EvaluationCriterionDef) := []

/-! ### Concrete fixtures used by witnesses and counterexamples. -/

def convHello : List GenericMessage :=
  [⟨.user, .str "Hello"⟩, ⟨.assistant, .str "Hi, how can I help you?"⟩]

def critsWelcome : List EvaluationCriterionDef :=
  [⟨"welcome", "The response is welcoming to the user"⟩,
   ⟨"relevance", "The response is relevant to the user's initial greeting"⟩]

/-- A stub judge whose verdicts pass every criterion. -/
def judgePass : JudgeFn := fun _ _ =>
  ⟨[⟨"welcome", "The response is welcoming to the user", true⟩,
    ⟨"relevance", "The response is relevant to the user's initial greeting", true⟩],
   ⟨none, none, 0⟩⟩

/-- A stub judge failing the second criterion. -/
def judgeMixed : JudgeFn := fun _ _ =>
  ⟨[⟨"welcome", "The response is welcoming to the user", true⟩,
    ⟨"relevance", "The response is relevant to the user's initial greeting", false⟩],
   ⟨none, none, 3⟩⟩

def ctx0 : MatcherContext :=
  ⟨some "spec.test.ts", some "greets the user", 1700000000000, 1700000000400,
   "2023-11-14T22:13:20.000Z"⟩

/-! ### C1 — aggregation and failure-message contents of the criteria-pass
operator. -/

/-- C1: for every non-empty criteria set and every judge result array, the
criteria-pass operator passes iff every entry has `passed = true`; the
message on failure is the header followed by exactly the failed entries
rendered `id: description`, one per line, passed entries omitted. -/
theorem toPassAllCriteria_aggregation (store : List EvaluationRecord)
    (conv : List GenericMessage) (crits : List EvaluationCriterionDef)
    (judgeFn : JudgeFn) (ctx : MatcherContext) (h : crits ≠ []) :
    (toPassAllCriteria store (some conv) (some crits) (some judgeFn) ctx).result.pass
        = (judgeFn conv crits).results.all (fun c => c.passed)
    ∧ (toPassAllCriteria store (some conv) (some crits) (some judgeFn) ctx).result.message
        = (if (judgeFn conv crits).results.all (fun c => c.passed) then
            "expected all criteria not to pass"
          else
            "expected all criteria to pass, but these failed:\n  " ++
              String.intercalate "\n  "
                (((judgeFn conv crits).results.filter (fun c => !c.passed)).map
                  (fun c => c.id ++ ": " ++ c.description))) := by
  have hlen : (crits.length == 0) = false := by
    simp [List.length_eq_zero, h]
  by_cases hA : (judgeFn conv crits).results.all (fun c => c.passed) = true
  · simp [toPassAllCriteria, hlen, hA]
  · rw [Bool.not_eq_true] at hA
    simp [toPassAllCriteria, hlen, hA]

/-- Witness for C1: the mixed stub judge fails exactly the `relevance`
criterion and the operator reports exactly that line. -/
theorem toPassAllCriteria_aggregation_witness :
    (toPassAllCriteria [] (some convHello) (some critsWelcome) (some judgeMixed) ctx0).result.pass
      = false
    ∧ (toPassAllCriteria [] (some convHello) (some critsWelcome) (some judgeMixed)
        ctx0).result.message
      = "expected all criteria to pass, but these failed:\n  " ++
          "relevance: The response is relevant to the user's initial greeting" := by
  have h := toPassAllCriteria_aggregation [] convHello critsWelcome judgeMixed ctx0 (by decide)
  refine ⟨by rw [h.1]; rfl, by rw [h.2]; rfl⟩

/-! ### C6 — the record store.  The claim says every invocation appends
exactly one record; an invocation that fails input validation (for
instance, an empty criteria set) returns early and appends none, so the
claim is refuted and amended to invocations that pass validation. -/

/-- Counterexample for C6: an invocation with an empty criteria set (a
fail verdict) leaves the store empty instead of growing it by one. -/
theorem toPassAllCriteria_empty_criteria_appends_no_record :
    (toPassAllCriteria [] (some convHello) (some []) (some judgePass) ctx0).records.length = 0
    ∧ (toPassAllCriteria [] (some convHello) (some []) (some judgePass) ctx0).result.pass
        = false := by
  exact ⟨rfl, rfl⟩

/-- C6 (amended): every invocation that passes input validation appends
exactly one record — the new store is the old one with a single record
appended, so its length grows by one and existing records are untouched —
regardless of the aggregate verdict. -/
theorem toPassAllCriteria_appends_exactly_one_record (store : List EvaluationRecord)
    (conv : List GenericMessage) (crits : List EvaluationCriterionDef)
    (judgeFn : JudgeFn) (ctx : MatcherContext) (h : crits ≠ []) :
    ∃ rec, (toPassAllCriteria store (some conv) (some crits) (some judgeFn) ctx).records
      = store ++ [rec] := by
  have hlen : (crits.length == 0) = false := by
    simp [List.length_eq_zero, h]
  simp [toPassAllCriteria, hlen]
  split
  all_goals exact ⟨_, rfl⟩

/-- Witness for C6: both a passing and a failing verdict append one
record to the same one-record store. -/
theorem toPassAllCriteria_appends_exactly_one_record_witness :
    (∃ rec, (toPassAllCriteria [] (some convHello) (some critsWelcome) (some judgePass)
        ctx0).records = [] ++ [rec])
    ∧ (∃ rec, (toPassAllCriteria [] (some convHello) (some critsWelcome) (some judgeMixed)
        ctx0).records = [] ++ [rec]) :=
  ⟨toPassAllCriteria_appends_exactly_one_record [] convHello critsWelcome judgePass ctx0
      (by decide),
   toPassAllCriteria_appends_exactly_one_record [] convHello critsWelcome judgeMixed ctx0
      (by decide)⟩

/-! ### C7 — input validation returns failed results, leaves the store
alone, and never calls the judge.  Non-throwing behaviour is inherent:
`toPassAllCriteria` is a total function and the validation branches are
ordinary return values. -/

/-- C7: a missing conversation, a missing or empty criteria set, or a
missing judge each yield a failed matcher result with the source's
descriptive message, an unchanged store, and zero judge invocations. -/
theorem toPassAllCriteria_validation_failures (store : List EvaluationRecord)
    (crits? : Option (List EvaluationCriterionDef)) (judge? : Option JudgeFn)
    (conv : List GenericMessage) (crits : List EvaluationCriterionDef)
    (ctx : MatcherContext) (h : crits ≠ []) :
    toPassAllCriteria store none crits? judge? ctx
      = ⟨⟨false, "Expected a conversation (ModelMessage[]) to be provided."⟩, store, 0⟩
    ∧ toPassAllCriteria store (some conv) none judge? ctx
      = ⟨⟨false, "Expected evaluation criteria (EvaluationCriterionDef[]) to be provided."⟩,
          store, 0⟩
    ∧ toPassAllCriteria store (some conv) (some []) judge? ctx
      = ⟨⟨false, "Expected evaluation criteria (EvaluationCriterionDef[]) to be provided."⟩,
          store, 0⟩
    ∧ toPassAllCriteria store (some conv) (some crits) none ctx
      = ⟨⟨false, "Expected a judge adapter to be provided."⟩, store, 0⟩ := by
  have hlen : (crits.length == 0) = false := by
    simp [List.length_eq_zero, h]
  exact ⟨rfl, rfl, rfl, by simp [toPassAllCriteria, hlen]⟩

/-- Witness for C7: with no conversation the store stays empty, and with
an empty criteria set the judge is never called. -/
theorem toPassAllCriteria_validation_failures_witness :
    (toPassAllCriteria [] none none none ctx0).records = []
    ∧ (toPassAllCriteria [] (some convHello) (some []) (some judgePass) ctx0).judgeCalls = 0
    ∧ (toPassAllCriteria [] (some convHello) (some critsWelcome) none ctx0).result.pass
        = false := by
  have h := toPassAllCriteria_validation_failures [] none none convHello critsWelcome ctx0
    (by decide)
  refine ⟨by rw [h.1], ?_, by rw [h.2.2.2]⟩
  have h2 := toPassAllCriteria_validation_failures [] none (some judgePass) convHello
    critsWelcome ctx0 (by decide)
  rw [h2.2.2.1]

/-! ### C5 — usage normalization: the returned and recorded usage always
carries `totalTokens`, defaulting to 0 when the adapter omitted usage. -/

/-- An adapter that omits usage. -/
def adapterNoUsage : AdapterFn := fun _ _ =>
  ⟨[⟨"welcome", "The response is welcoming to the user", true⟩], none⟩

/-- An adapter reporting `{totalTokens: 7}`. -/
def adapterSeven : AdapterFn := fun _ _ =>
  ⟨[⟨"welcome", "The response is welcoming to the user", true⟩], some ⟨none, none, 7⟩⟩

/-- C5: the engine's returned usage has `totalTokens` equal to the
adapter's reported total when usage is present and `0` when it is absent;
the `createAiSdkJudge` normalization embedded from the source does the
same; and the record appended by the criteria-pass operator carries the
engine's normalized usage unchanged. -/
theorem evaluateAiResponse_usage_normalization (adapter : AdapterFn)
    (msgs : List GenericMessage) (crits : List EvaluationCriterionDef)
    (store : List EvaluationRecord) (conv : List GenericMessage) (ctx : MatcherContext)
    (h : crits ≠ []) :
    (evaluateAiResponse adapter msgs crits).usage.totalTokens
      = (match (adapter msgs crits).usage with
         | some u => u.totalTokens
         | none => 0)
    ∧ (normalizeAiSdkUsage none).totalTokens = 0
    ∧ (normalizeAiSdkUsage (some ⟨some 7⟩)).totalTokens = 7
    ∧ (normalizeAiSdkUsage (some ⟨none⟩)).totalTokens = 0
    ∧ ∃ rec, (toPassAllCriteria store (some conv) (some crits)
          (some (evaluateAiResponse adapter)) ctx).records = store ++ [rec]
        ∧ rec.usage = (evaluateAiResponse adapter conv crits).usage := by
  have hlen : (crits.length == 0) = false := by
    simp [List.length_eq_zero, h]
  refine ⟨?_, rfl, rfl, rfl, ?_⟩
  · cases hu : (adapter msgs crits).usage <;> simp [evaluateAiResponse, hu]
  · simp [toPassAllCriteria, hlen]
    split
    all_goals exact ⟨_, rfl, rfl⟩

/-- Witness for C5: the omitted-usage adapter yields `totalTokens = 0`,
the `{totalTokens: 7}` adapter yields `7`, and the appended record
carries the `7`. -/
theorem evaluateAiResponse_usage_normalization_witness :
    (evaluateAiResponse adapterNoUsage convHello critsWelcome).usage.totalTokens = 0
    ∧ (evaluateAiResponse adapterSeven convHello critsWelcome).usage.totalTokens = 7
    ∧ ∃ rec, (toPassAllCriteria [] (some convHello) (some critsWelcome)
          (some (evaluateAiResponse adapterSeven)) ctx0).records = [] ++ [rec]
        ∧ rec.usage.totalTokens = 7 := by
  have h1 := evaluateAiResponse_usage_normalization adapterNoUsage convHello critsWelcome
    [] convHello ctx0 (by decide)
  have h2 := evaluateAiResponse_usage_normalization adapterSeven convHello critsWelcome
    [] convHello ctx0 (by decide)
  refine ⟨by rw [h1.1]; rfl, by rw [h2.1]; rfl, ?_⟩
  obtain ⟨rec, hrec, hu⟩ := h2.2.2.2.2
  exact ⟨rec, hrec, by rw [hu]; rfl⟩

/-! ### C8 — the claim says an unknown predefined-criterion key raises a
`ConfigurationError` at criteria-definition time.  The builder the claim
cites (src/unnamed/part_012 lines 58-95) has no throwing path: `add` on a
string key pushes the table lookup's result — `undefined` for an unknown
key — and returns the builder; no `ConfigurationError` exists anywhere in
the source.  The claim is refuted and amended to the silent behaviour. -/

/-- Counterexample for C8: `add` on the unknown key `"Helpfulness"`
returns normally with the builder extended by the `undefined` lookup
result — the unknown key is silently accepted and no error of any kind is
produced, contrary to the claimed `ConfigurationError`. -/
theorem CriteriaBuilder_add_unknown_key_silent :
    CRITERIA.find? (fun p => p.1 == "Helpfulness") = none
    ∧ CriteriaBuilder.add defineEvaluationCriteria (.predefinedKey "Helpfulness")
        = [none] :=
  ⟨by decide, by decide⟩

/-- C8 (amended): `add` never raises — with a key missing from the
predefined table it pushes the lookup's `undefined` result and returns
the builder, and with a literal criterion it pushes that criterion;
unknown keys are rejected only statically by the TypeScript
`CriterionKey` parameter type, not at runtime. -/
theorem CriteriaBuilder_add_pushes_lookup
    (builder : List (Option EvaluationCriterionDef)) (key : String)
    (c : EvaluationCriterionDef)
    (h : CRITERIA.find? (fun p => p.1 == key) = none) :
    CriteriaBuilder.add builder (.predefinedKey key) = builder ++ [none]
    ∧ CriteriaBuilder.add builder (.criterion c) = builder ++ [some c] := by
  refine ⟨?_, rfl⟩
  simp [CriteriaBuilder.add, h]

/-- Witness for C8 (amended): at the unknown key `"Helpfulness"` the
builder grows by a pushed `undefined`, and a literal criterion is
appended as-is. -/
theorem CriteriaBuilder_add_pushes_lookup_witness :
    CRITERIA.find? (fun p => p.1 == "Helpfulness") = none
    ∧ (CriteriaBuilder.add [] (.predefinedKey "Helpfulness") = [] ++ [none]
       ∧ CriteriaBuilder.add [] (.criterion ⟨"tone", "The tone is friendly"⟩)
           = [] ++ [some ⟨"tone", "The tone is friendly"⟩]) :=
  ⟨by decide,
   CriteriaBuilder_add_pushes_lookup [] "Helpfulness" ⟨"tone", "The tone is friendly"⟩
     (by decide)⟩

/-! ### C2 and C10 — deep partial match.  Supporting lemmas about the
element-wise array scan. -/

theorem jaGet_append : ∀ (as extra : JArray) (i : Nat), i < as.length →
    jaGet (as.append extra) i = jaGet as i
  | .nil, _, i, h => by simp [JArray.length] at h
  | .cons _ _, _, 0, _ => rfl
  | .cons v rest, extra, i + 1, h => by
      have hh : i < rest.length := by
        simp [JArray.length] at h
        omega
      simpa [JArray.append, jaGet] using jaGet_append rest extra i hh

theorem jaGet_of_getEq : ∀ (as : JArray) (i : Nat) (w : JValue),
    as.get? i = some w → jaGet as i = w
  | .nil, i, _, h => by simp [JArray.get?] at h
  | .cons v rest, 0, w, h => by simpa [JArray.get?, jaGet] using h
  | .cons v rest, i + 1, w, h => by
      simp only [JArray.get?] at h
      simpa [jaGet] using jaGet_of_getEq rest i w h

/-- Elements of the actual array past the expected array's length never
influence the element-wise scan. -/
theorem arrPrefixEq_append : ∀ (es : JArray) (i r : Nat) (as extra : JArray),
    i + es.length ≤ as.length →
    arrPrefixEq (.varr r (as.append extra)) i es = arrPrefixEq (.varr r as) i es
  | .nil, _, _, _, _, _ => rfl
  | .cons v vs, i, r, as, extra, h => by
      have h1 : i < as.length := by
        simp [JArray.length] at h
        omega
      have h2 : (i + 1) + vs.length ≤ as.length := by
        simp [JArray.length] at h
        omega
      simp [arrPrefixEq, getIdx, jaGet_append as extra i h1,
        arrPrefixEq_append vs (i + 1) r as extra h2]

/-- One failing `===` comparison at any expected index sinks the whole
element-wise scan. -/
theorem arrPrefixEq_false_of_mismatch : ∀ (es : JArray) (act : JValue) (start j : Nat)
    (v : JValue), es.get? j = some v → strictEq (getIdx act (start + j)) v = false →
    arrPrefixEq act start es = false
  | .nil, _, _, j, _, hget, _ => by simp [JArray.get?] at hget
  | .cons w ws, act, start, 0, v, hget, hne => by
      have hv : w = v := by simpa [JArray.get?] using hget
      subst hv
      simp only [Nat.add_zero] at hne
      simp [arrPrefixEq, hne]
  | .cons w ws, act, start, j + 1, v, hget, hne => by
      simp only [JArray.get?] at hget
      have harith : start + 1 + j = start + (j + 1) := by omega
      have hne' : strictEq (getIdx act (start + 1 + j)) v = false := by
        rw [harith]
        exact hne
      simp [arrPrefixEq, arrPrefixEq_false_of_mismatch ws act (start + 1) j v hget hne']

/-! Concrete object fixtures for the spec's worked examples
`match({a:1,b:2},{a:1})`, `match({a:1},{a:1,b:2})`,
`match({arr:[1,2,3]},{arr:[1,2]})` and `match({arr:[1,2]},{arr:[1,2,3]})`
(object/array reference tags arbitrary but distinct between the two
argument trees, as for separately constructed JavaScript literals). -/

def objA1B2 : JValue := .vobj 0 (.cons "a" (.vnum 1) (.cons "b" (.vnum 2) .nil))

def objA1act : JValue := .vobj 0 (.cons "a" (.vnum 1) .nil)

def objA1exp : JValue := .vobj 1 (.cons "a" (.vnum 1) .nil)

def objA1B2exp : JValue := .vobj 1 (.cons "a" (.vnum 1) (.cons "b" (.vnum 2) .nil))

def arr12 : JArray := .cons (.vnum 1) (.cons (.vnum 2) .nil)

def arr123 : JArray := .cons (.vnum 1) (.cons (.vnum 2) (.cons (.vnum 3) .nil))

/-- `{arr: <a>}` with object tag `r` and array tag `ra`. -/
def objArr (r ra : Nat) (a : JArray) : JValue := .vobj r (.cons "arr" (.varr ra a) .nil)

/-- C2: `deepPartialMatch` is a one-directional subset check — the spec's
four worked examples evaluate as claimed, and in general extra actual
array elements beyond the expected length never change the outcome. -/
theorem deepPartialMatch_one_directional_subset (es as extra : JArray) (k : String)
    (r1 r2 r3 r4 : Nat) (h : es.length ≤ as.length) :
    deepPartialMatch objA1B2 objA1exp = true
    ∧ deepPartialMatch objA1act objA1B2exp = false
    ∧ deepPartialMatch (objArr 0 2 arr123) (objArr 1 3 arr12) = true
    ∧ deepPartialMatch (objArr 0 2 arr12) (objArr 1 3 arr123) = false
    ∧ deepPartialMatch (.vobj r1 (.cons k (.varr r2 (as.append extra)) .nil))
          (.vobj r3 (.cons k (.varr r4 es) .nil))
        = deepPartialMatch (.vobj r1 (.cons k (.varr r2 as) .nil))
          (.vobj r3 (.cons k (.varr r4 es) .nil)) := by
  refine ⟨by decide, by decide, by decide, by decide, ?_⟩
  have h0 : 0 + es.length ≤ as.length := by omega
  simp [deepPartialMatch, truthy, matchEntries, matchEntry, getField, findField,
    JValue.isArr, arrPrefixEq_append es 0 r2 as extra h0]

/-- Witness for C2: `[1,2]` is no longer than itself, and appending `[3]`
to the actual array leaves the match of `{arr:[1,2]}` unchanged. -/
theorem deepPartialMatch_one_directional_subset_witness :
    arr12.length ≤ arr12.length
    ∧ deepPartialMatch (.vobj 0 (.cons "arr" (.varr 2 (arr12.append (.cons (.vnum 3) .nil)))
          .nil)) (.vobj 1 (.cons "arr" (.varr 3 arr12) .nil))
        = deepPartialMatch (.vobj 0 (.cons "arr" (.varr 2 arr12) .nil))
          (.vobj 1 (.cons "arr" (.varr 3 arr12) .nil)) :=
  ⟨by decide,
   (deepPartialMatch_one_directional_subset arr12 arr12 (.cons (.vnum 3) .nil) "arr" 0 2 1 3
      (by decide)).2.2.2.2⟩

/-- `{x: 1}`, the fields of a structurally equal inner object appearing
under two distinct reference tags. -/
def innerX : JFields := .cons "x" (.vnum 1) .nil

/-- C10: expected array elements are compared with `===` only — a single
index whose actual and expected elements are not `===`-equal sinks the
match; `===` on objects and arrays is reference-tag equality, so
structurally equal but distinct nested objects inside arrays always
mismatch, while the very same reference matches. -/
theorem deepPartialMatch_array_elements_by_reference (k : String) (r1 r2 r3 r4 : Nat)
    (as es : JArray) (i : Nat) (v w : JValue) (ro ra : Nat) (fo fa : JFields)
    (eo ea : JArray) (hes : es.get? i = some v) (has : as.get? i = some w)
    (hne : strictEq w v = false) :
    deepPartialMatch (.vobj r1 (.cons k (.varr r2 as) .nil))
        (.vobj r3 (.cons k (.varr r4 es) .nil)) = false
    ∧ strictEq (.vobj ra fa) (.vobj ro fo) = (ra == ro)
    ∧ strictEq (.varr ra ea) (.varr ro eo) = (ra == ro)
    ∧ deepPartialMatch
        (.vobj 0 (.cons "arr" (.varr 1 (.cons (.vobj 2 innerX) .nil)) .nil))
        (.vobj 10 (.cons "arr" (.varr 11 (.cons (.vobj 12 innerX) .nil)) .nil)) = false
    ∧ deepPartialMatch
        (.vobj 0 (.cons "arr" (.varr 1 (.cons (.vobj 12 innerX) .nil)) .nil))
        (.vobj 10 (.cons "arr" (.varr 11 (.cons (.vobj 12 innerX) .nil)) .nil)) = true := by
  refine ⟨?_, rfl, rfl, by decide, by decide⟩
  have hidx : strictEq (getIdx (JValue.varr r2 as) (0 + i)) v = false := by
    have hw : jaGet as i = w := jaGet_of_getEq as i w has
    simp [getIdx, hw, hne]
  simp [deepPartialMatch, truthy, matchEntries, matchEntry, getField, findField,
    JValue.isArr, arrPrefixEq_false_of_mismatch es (JValue.varr r2 as) 0 i v hes hidx]

/-- Witness for C10: the one-element arrays holding structurally equal
`{x:1}` objects under distinct reference tags 2 and 12 fail to match. -/
theorem deepPartialMatch_array_elements_by_reference_witness :
    JArray.get? (.cons (.vobj 12 innerX) .nil) 0 = some (.vobj 12 innerX)
    ∧ JArray.get? (.cons (.vobj 2 innerX) .nil) 0 = some (.vobj 2 innerX)
    ∧ strictEq (.vobj 2 innerX) (.vobj 12 innerX) = false
    ∧ deepPartialMatch
        (.vobj 0 (.cons "arr" (.varr 1 (.cons (.vobj 2 innerX) .nil)) .nil))
        (.vobj 10 (.cons "arr" (.varr 11 (.cons (.vobj 12 innerX) .nil)) .nil)) = false :=
  ⟨rfl, rfl, by decide,
   (deepPartialMatch_array_elements_by_reference "arr" 0 1 10 11
      (.cons (.vobj 2 innerX) .nil) (.cons (.vobj 12 innerX) .nil) 0
      (.vobj 12 innerX) (.vobj 2 innerX) 0 0 .nil .nil .nil .nil
      rfl rfl (by decide)).1⟩

/-! ### C3 — the confidence operator.  An iteration succeeds iff its test
function completed without throwing; thrown errors are caught, logged and
counted as failures without aborting the run (the operator is a total
function of the per-iteration outcomes), and the operator passes iff
`successes / iterations >= minSuccessRate`. -/

theorem confidence_counts (testFn : Nat → Except String Unit) (n : Nat)
    (l : List Nat) :
    ((l.map (iterationResult testFn n)).filter (fun r => r.1)).length
      = (l.filter (fun i => isOk (testFn i))).length
    ∧ ((l.map (iterationResult testFn n)).filterMap (fun r => r.2)).length
      + (l.filter (fun i => isOk (testFn i))).length = l.length := by
  induction l with
  | nil => exact ⟨rfl, rfl⟩
  | cons i rest ih =>
      obtain ⟨ih1, ih2⟩ := ih
      simp only [List.filterMap_map] at ih2
      cases hti : testFn i with
      | ok u =>
          have hfi : iterationResult testFn n i = (true, none) := by
            simp [iterationResult, hti]
          have hqi : isOk (testFn i) = true := by simp [isOk, hti]
          simp only [List.map_cons, List.filter_cons, List.filterMap_cons, hfi, hqi]
          constructor
          · simp [ih1]
          · simp only [List.length_cons]
            simp
            omega
      | error msg =>
          have hfi : iterationResult testFn n i
              = (false, some (iterationLog i n msg)) := by
            simp [iterationResult, hti]
          have hqi : isOk (testFn i) = false := by simp [isOk, hti]
          simp only [List.map_cons, List.filter_cons, List.filterMap_cons, hfi, hqi]
          constructor
          · simp [ih1]
          · simp only [List.length_cons]
            simp
            omega

/-- A deterministic test function succeeding on exactly the first `k`
iteration indices. -/
def firstKPass (k : Nat) : Nat → Except String Unit :=
  fun i => if i < k then .ok ⟨⟩ else .error "iteration failed"

/-- C3: the confidence operator runs the test function once per iteration
index, counts exactly the non-throwing iterations as successes, logs one
line per thrown error (never propagating it), passes iff
`successes / iterations >= minSuccessRate`, and on the defaults
(`iterations = 10`, `minSuccessRate = 0.8`) passes with 8 deterministic
successes but fails with 7. -/
theorem toPassWithConfidence_spec (testFn : Nat → Except String Unit)
    (options : ConfidenceOptions) :
    (toPassWithConfidence testFn options).iterations = options.iterations.getD 10
    ∧ (toPassWithConfidence testFn options).successes
        = ((List.range (options.iterations.getD 10)).filter
            (fun i => isOk (testFn i))).length
    ∧ (toPassWithConfidence testFn options).pass
        = decide ((((toPassWithConfidence testFn options).successes : ℚ)
              / ((options.iterations.getD 10 : Nat) : ℚ))
            ≥ options.minSuccessRate.getD (0.8 : ℚ))
    ∧ (toPassWithConfidence testFn options).logs.length
        = (options.iterations.getD 10) - (toPassWithConfidence testFn options).successes
    ∧ (toPassWithConfidence (firstKPass 8) ⟨none, none⟩).pass = true
    ∧ (toPassWithConfidence (firstKPass 7) ⟨none, none⟩).pass = false := by
  obtain ⟨h1, h2⟩ := confidence_counts testFn (options.iterations.getD 10)
    (List.range (options.iterations.getD 10))
  refine ⟨rfl, ?_, rfl, ?_, ?_, ?_⟩
  · simpa [toPassWithConfidence] using h1
  · simp only [List.length_range] at h2
    simp only [toPassWithConfidence]
    omega
  · have hs : (((List.range 10).map (iterationResult (firstKPass 8) 10)).filter
        (fun (r : Bool × Option String) => r.1)).length = 8 := by decide
    simp only [toPassWithConfidence, Option.getD_none, decide_eq_true_eq]
    rw [hs]
    norm_num
  · have hs : (((List.range 10).map (iterationResult (firstKPass 7) 10)).filter
        (fun (r : Bool × Option String) => r.1)).length = 7 := by decide
    simp only [toPassWithConfidence, Option.getD_none, decide_eq_false_iff_not]
    rw [hs]
    norm_num

/-! ### C4 — the tool-call argument operator's scan order.  The claim says
only the first name-matching entry is ever evaluated against
`expectedArgs`; in the source the inner loop `break`s only when an entry
matches name AND arguments, so later same-name entries are evaluated too
and the operator passes when any of them matches. -/

/-- An entry that matches the tool name and (when given) the expected
arguments. -/
def entryAccepted (toolName : String) (expectedArgs : Option JValue) :
    MessagePart → Bool
  | .toolCall name input => name == toolName && argsAccepted expectedArgs input
  | _ => false

/-- An entry that matches the tool name. -/
def entryNamed (toolName : String) : MessagePart → Bool
  | .toolCall name _ => name == toolName
  | _ => false

def msgHasMatch (toolName : String) (expectedArgs : Option JValue)
    (m : GenericMessage) : Bool :=
  m.role == .assistant && (contentParts m.content).any (entryAccepted toolName expectedArgs)

def msgHasNamed (toolName : String) (m : GenericMessage) : Bool :=
  m.role == .assistant && (contentParts m.content).any (entryNamed toolName)

theorem any_filter {α : Type} (p q : α → Bool) (l : List α) :
    (l.filter p).any q = l.any (fun x => p x && q x) := by
  induction l with
  | nil => rfl
  | cons x rest ih =>
      by_cases hp : p x = true
      · simp [List.filter_cons, hp, List.any_cons, ih]
      · rw [Bool.not_eq_true] at hp
        simp [List.filter_cons, hp, List.any_cons, ih]

theorem scanEntries_foundWithArgs (tn : String) (ea : Option JValue)
    (l : List MessagePart) (st : ToolCallScanState) :
    (scanEntries tn ea st l).foundWithArgs
      = (st.foundWithArgs || l.any (entryAccepted tn ea)) := by
  induction l generalizing st with
  | nil => simp [scanEntries]
  | cons e rest ih =>
      cases e with
      | toolCall name input =>
          by_cases hn : (name == tn) = true
          · by_cases hm : argsAccepted ea input = true
            · simp [scanEntries, hn, hm, entryAccepted, List.any_cons]
            · rw [Bool.not_eq_true] at hm
              simp [scanEntries, hn, hm, entryAccepted, List.any_cons, ih]
          · rw [Bool.not_eq_true] at hn
            simp [scanEntries, hn, entryAccepted, List.any_cons, ih]
      | text t => simp [scanEntries, entryAccepted, List.any_cons, ih]
      | toolResult n o e => simp [scanEntries, entryAccepted, List.any_cons, ih]
      | raw r => simp [scanEntries, entryAccepted, List.any_cons, ih]

theorem scanEntries_found (tn : String) (ea : Option JValue)
    (l : List MessagePart) (st : ToolCallScanState)
    (hno : l.any (entryAccepted tn ea) = false) :
    (scanEntries tn ea st l).found = (st.found || l.any (entryNamed tn)) := by
  induction l generalizing st with
  | nil => simp [scanEntries]
  | cons e rest ih =>
      rw [List.any_cons, Bool.or_eq_false_iff] at hno
      obtain ⟨hhead, hrest⟩ := hno
      cases e with
      | toolCall name input =>
          by_cases hn : (name == tn) = true
          · have hm : argsAccepted ea input = false := by
              rw [entryAccepted, hn] at hhead
              simpa using hhead
            simp [scanEntries, hn, hm, entryNamed, List.any_cons, ih _ hrest]
          · rw [Bool.not_eq_true] at hn
            simp [scanEntries, hn, entryNamed, List.any_cons, ih _ hrest]
      | text t => simp [scanEntries, entryNamed, List.any_cons, ih _ hrest]
      | toolResult n o e => simp [scanEntries, entryNamed, List.any_cons, ih _ hrest]
      | raw r => simp [scanEntries, entryNamed, List.any_cons, ih _ hrest]

theorem scanMessages_foundWithArgs (tn : String) (ea : Option JValue)
    (msgs : List GenericMessage) (st : ToolCallScanState) :
    (scanMessages tn ea st msgs).foundWithArgs
      = (st.foundWithArgs
          || msgs.any (fun m => (contentParts m.content).any (entryAccepted tn ea))) := by
  induction msgs generalizing st with
  | nil => simp [scanMessages]
  | cons m rest ih =>
      simp only [scanMessages]
      have he := scanEntries_foundWithArgs tn ea (contentParts m.content) st
      by_cases hf : (scanEntries tn ea st (contentParts m.content)).foundWithArgs = true
      · rw [if_pos hf]
        rw [he] at hf ⊢
        rw [List.any_cons]
        revert hf
        cases st.foundWithArgs <;>
          cases (contentParts m.content).any (entryAccepted tn ea) <;> simp
      · rw [if_neg hf]
        rw [ih, he, List.any_cons, Bool.or_assoc]

theorem scanMessages_found (tn : String) (ea : Option JValue)
    (msgs : List GenericMessage) (st : ToolCallScanState)
    (hst : st.foundWithArgs = false)
    (hno : msgs.any (fun m => (contentParts m.content).any (entryAccepted tn ea)) = false) :
    (scanMessages tn ea st msgs).found
      = (st.found
          || msgs.any (fun m => (contentParts m.content).any (entryNamed tn))) := by
  induction msgs generalizing st with
  | nil => simp [scanMessages]
  | cons m rest ih =>
      rw [List.any_cons, Bool.or_eq_false_iff] at hno
      obtain ⟨hhead, hrest⟩ := hno
      simp only [scanMessages]
      have hf : (scanEntries tn ea st (contentParts m.content)).foundWithArgs = false := by
        rw [scanEntries_foundWithArgs, hst, hhead]
        rfl
      rw [if_neg (by rw [hf]; exact Bool.false_ne_true)]
      rw [ih _ hf hrest, scanEntries_found tn ea _ _ hhead, List.any_cons,
        Bool.or_assoc]

/-- Counterexample fixtures for C4: one assistant message carrying two
tool-call entries for the same tool name, where the expected arguments
match only the second entry. -/
def toolArgs1 : JValue := .vobj 1 (.cons "x" (.vnum 1) .nil)

def toolArgs2 : JValue := .vobj 2 (.cons "x" (.vnum 2) .nil)

def expectedX2 : JValue := .vobj 3 (.cons "x" (.vnum 2) .nil)

def twoCallConv : List GenericMessage :=
  [⟨.assistant, .parts [.toolCall "search" toolArgs1, .toolCall "search" toolArgs2]⟩]

/-- Counterexample for C4: with two same-name tool calls where only the
second entry's arguments match, the operator passes — it does not stop at
the first name match and report an argument mismatch. -/
theorem toHaveToolCall_not_first_match_only :
    (toHaveToolCall twoCallConv "search" (some expectedX2)).pass = true
    ∧ (toHaveToolCall twoCallConv "search" (some expectedX2)).verdict
        ≠ ToolCallVerdict.argsMismatch
    ∧ deepPartialMatch toolArgs1 expectedX2 = false
    ∧ deepPartialMatch toolArgs2 expectedX2 = true := by
  exact ⟨by decide, by decide, by decide, by decide⟩

/-- C4 (amended): the scan evaluates name-matching entries in order until
one also matches the expected arguments — the operator passes iff some
assistant message has a tool-call entry matching both name and arguments,
and it reports an argument mismatch exactly when some entry matches the
name but none matches the arguments. -/
theorem toHaveToolCall_any_matching_entry (received : List GenericMessage)
    (tn : String) (ea : JValue) :
    (toHaveToolCall received tn (some ea)).pass
        = received.any (msgHasMatch tn (some ea))
    ∧ (toHaveToolCall received tn (some ea)).verdict
        = (if received.any (msgHasMatch tn (some ea)) then ToolCallVerdict.matched
           else if received.any (msgHasNamed tn) then ToolCallVerdict.argsMismatch
           else ToolCallVerdict.notFound) := by
  have hpass : (toHaveToolCall received tn (some ea)).pass
      = received.any (msgHasMatch tn (some ea)) := by
    show (scanMessages tn (some ea) ⟨false, false, none⟩
        (received.filter (fun m => m.role == .assistant))).foundWithArgs
      = received.any (msgHasMatch tn (some ea))
    rw [scanMessages_foundWithArgs, any_filter]
    rfl
  refine ⟨hpass, ?_⟩
  by_cases hm : received.any (msgHasMatch tn (some ea)) = true
  · have : (scanMessages tn (some ea) ⟨false, false, none⟩
        (received.filter (fun m => m.role == .assistant))).foundWithArgs = true := by
      rw [← hpass] at hm
      exact hm
    simp [toHaveToolCall, this, hm]
  · rw [Bool.not_eq_true] at hm
    have hfq : (received.filter (fun m => m.role == .assistant)).any
        (fun m => (contentParts m.content).any (entryAccepted tn (some ea))) = false := by
      rw [any_filter]
      rw [show (fun m => m.role == Role.assistant
            && (contentParts m.content).any (entryAccepted tn (some ea)))
          = msgHasMatch tn (some ea) from rfl]
      exact hm
    have hfwa : (scanMessages tn (some ea) ⟨false, false, none⟩
        (received.filter (fun m => m.role == .assistant))).foundWithArgs = false := by
      rw [← hpass] at hm
      exact hm
    have hfound : (scanMessages tn (some ea) ⟨false, false, none⟩
        (received.filter (fun m => m.role == .assistant))).found
        = received.any (msgHasNamed tn) := by
      rw [scanMessages_found tn (some ea) _ _ rfl hfq, any_filter]
      rfl
    by_cases hn : received.any (msgHasNamed tn) = true
    · simp [toHaveToolCall, hfwa, hm, hfound, hn]
    · rw [Bool.not_eq_true] at hn
      simp [toHaveToolCall, hfwa, hm, hfound, hn]

/-! ### C9 — the multi-step conversation runner: one generation call per
user turn, `onStep` once per turn with zero-based indices in order, a
non-decreasing transcript, and the full transcript returned. -/

theorem runMultiStepAux_snd {α : Type} (cap : List GenericMessage → α)
    (gen : α → List GenericMessage) :
    ∀ (msgs : List String) (h mh : List GenericMessage) (i : Nat),
    (runMultiStepAux cap gen h mh i msgs).steps.map Prod.snd = List.range' i msgs.length
  | [], _, _, _ => rfl
  | u :: rest, h, mh, i => by
      simp only [runMultiStepAux, List.map_cons]
      rw [runMultiStepAux_snd cap gen rest _ _ (i + 1)]
      rfl

theorem runMultiStepAux_genCalls {α : Type} (cap : List GenericMessage → α)
    (gen : α → List GenericMessage) :
    ∀ (msgs : List String) (h mh : List GenericMessage) (i : Nat),
    (runMultiStepAux cap gen h mh i msgs).genCalls = msgs.length
  | [], _, _, _ => rfl
  | u :: rest, h, mh, i => by
      simp only [runMultiStepAux, List.length_cons]
      rw [runMultiStepAux_genCalls cap gen rest _ _ (i + 1)]

/-- The model-facing transcript only ever grows. -/
theorem runMultiStepAux_grows {α : Type} (cap : List GenericMessage → α)
    (gen : α → List GenericMessage) :
    ∀ (msgs : List String) (h mh : List GenericMessage) (i : Nat),
    mh <+: (runMultiStepAux cap gen h mh i msgs).modelHistory
  | [], _, mh, _ => List.prefix_refl mh
  | u :: rest, h, mh, i => by
      simp only [runMultiStepAux]
      refine List.IsPrefix.trans ?_ (runMultiStepAux_grows cap gen rest _ _ (i + 1))
      rw [List.append_assoc]
      exact List.prefix_append _ _

/-- Every transcript handed to `onStep` is a prefix of the transcript the
runner finally returns. -/
theorem runMultiStepAux_steps_grow {α : Type} (cap : List GenericMessage → α)
    (gen : α → List GenericMessage) :
    ∀ (msgs : List String) (h mh : List GenericMessage) (i : Nat),
    ∀ p ∈ (runMultiStepAux cap gen h mh i msgs).steps,
      p.1 <+: (runMultiStepAux cap gen h mh i msgs).modelHistory
  | [], _, _, _ => by
      intro p hp
      simp [runMultiStepAux] at hp
  | u :: rest, h, mh, i => by
      intro p hp
      simp only [runMultiStepAux, List.mem_cons] at hp ⊢
      rcases hp with hp | hp
      · subst hp
        exact runMultiStepAux_grows cap gen rest _ _ (i + 1)
      · exact runMultiStepAux_steps_grow cap gen rest _ _ (i + 1) p hp

/-- Every transcript handed to `onStep` is at least as long as the
transcript at entry. -/
theorem runMultiStepAux_steps_len {α : Type} (cap : List GenericMessage → α)
    (gen : α → List GenericMessage) :
    ∀ (msgs : List String) (h mh : List GenericMessage) (i : Nat),
    ∀ p ∈ (runMultiStepAux cap gen h mh i msgs).steps, mh.length ≤ p.1.length
  | [], _, _, _ => by
      intro p hp
      simp [runMultiStepAux] at hp
  | u :: rest, h, mh, i => by
      intro p hp
      simp only [runMultiStepAux, List.mem_cons] at hp
      have hgrow : mh.length
          ≤ ((mh ++ [(⟨.user, .str u⟩ : GenericMessage)]) ++ gen (cap (h ++ [⟨.user, .str u⟩]))).length := by
        simp [List.length_append]
      rcases hp with hp | hp
      · subst hp
        exact hgrow
      · exact le_trans hgrow
          (runMultiStepAux_steps_len cap gen rest _ _ (i + 1) p hp)

/-- The transcript lengths seen by `onStep` are monotonically
non-decreasing across calls. -/
theorem runMultiStepAux_chain {α : Type} (cap : List GenericMessage → α)
    (gen : α → List GenericMessage) :
    ∀ (msgs : List String) (h mh : List GenericMessage) (i : Nat),
    List.Chain' (fun a b => a ≤ b)
      ((runMultiStepAux cap gen h mh i msgs).steps.map (fun p => p.1.length))
  | [], _, _, _ => by simp [runMultiStepAux]
  | u :: rest, h, mh, i => by
      simp only [runMultiStepAux, List.map_cons]
      rw [List.chain'_cons']
      refine ⟨?_, runMultiStepAux_chain cap gen rest _ _ (i + 1)⟩
      intro y hy
      rw [List.head?_map] at hy
      rcases Option.map_eq_some'.mp hy with ⟨p, hp, rfl⟩
      exact runMultiStepAux_steps_len cap gen rest _ _ (i + 1) p
        (List.mem_of_mem_head? hp)

/-- C9: for every list of user turns, the runner performs exactly one
generation call per turn, invokes `onStep` exactly once per turn with
zero-based indices `0..n-1` in order and transcripts of non-decreasing
length, each of which is a prefix of the returned full transcript; with no
turns it returns an empty transcript after zero `onStep` and zero
generation calls. -/
theorem runMultiStepTest_spec {α : Type} (userMessages : List String)
    (createAgentPrompt : List GenericMessage → α)
    (generate : α → List GenericMessage) :
    (runMultiStepTest userMessages createAgentPrompt generate).steps.length
        = userMessages.length
    ∧ (runMultiStepTest userMessages createAgentPrompt generate).steps.map Prod.snd
        = List.range userMessages.length
    ∧ (runMultiStepTest userMessages createAgentPrompt generate).genCalls
        = userMessages.length
    ∧ List.Chain' (fun a b => a ≤ b)
        ((runMultiStepTest userMessages createAgentPrompt generate).steps.map
          (fun p => p.1.length))
    ∧ (∀ p ∈ (runMultiStepTest userMessages createAgentPrompt generate).steps,
        p.1 <+: (runMultiStepTest userMessages createAgentPrompt generate).modelHistory)
    ∧ (runMultiStepTest ([] : List String) createAgentPrompt generate).modelHistory = []
    ∧ (runMultiStepTest ([] : List String) createAgentPrompt generate).steps = []
    ∧ (runMultiStepTest ([] : List String) createAgentPrompt generate).genCalls = 0 := by
  have hsnd := runMultiStepAux_snd createAgentPrompt generate userMessages [] [] 0
  refine ⟨?_, ?_, ?_, ?_, ?_, rfl, rfl, rfl⟩
  · have := congrArg List.length hsnd
    simpa [List.length_range'] using this
  · rw [runMultiStepTest, hsnd, List.range_eq_range']
  · exact runMultiStepAux_genCalls createAgentPrompt generate userMessages [] [] 0
  · exact runMultiStepAux_chain createAgentPrompt generate userMessages [] [] 0
  · exact runMultiStepAux_steps_grow createAgentPrompt generate userMessages [] [] 0

/-- Witness for C9: with three user turns and a fixed responder, `onStep`
sees exactly the indices `[0, 1, 2]`. -/
theorem runMultiStepTest_spec_witness :
    (runMultiStepTest ["hello", "more", "bye"]
        (fun h => h) (fun _ => [⟨.assistant, .str "ok"⟩])).steps.map Prod.snd
      = [0, 1, 2] := by
  have h := (runMultiStepTest_spec ["hello", "more", "bye"]
    (fun h => h) (fun _ => [⟨.assistant, .str "ok"⟩])).2.1
  rw [h]
  rfl

end JestLlmEval
